import Mathlib

/-!
Verification of the delivery core of `go-notify-server` (a Go web-push
notification server) against its natural-language specification.

The Go source is shallowly embedded: SQLite tables become Lean lists of
records, the bounded-concurrency fan-out loop of `sendToSubscriptions`
(push.go) becomes a sequential fold over an oracle list of push-primitive
outcomes (the aggregate counts and per-subscriber effects are
order-independent, and each goroutine touches only its own subscriber),
and Go `int64` arithmetic is modelled on `Int` with explicit wrapping.
-/

/-- A stored push subscription: one row of the `subscriptions` table
(columns `id, topic, endpoint, key_p256dh, key_auth, created_at`). -/
structure Subscription where
  id : String
  topic : String
  endpoint : String
  keyP256dh : String
  keyAuth : String
  createdAt : String
deriving DecidableEq, Repr

/-- One row of the `delivery_log` table (the AUTOINCREMENT row id is
irrelevant to every claim and omitted). `LogDelivery` inserts
`subscription_id, status_code, error`; `sent_at` defaults to the insertion
time, modelled as integer seconds. -/
structure LogRow where
  subscriptionId : String
  sentAt : Int
  statusCode : Nat
  error : String
deriving DecidableEq, Repr

/-- The durable state owned by the SQLite database: the `subscriptions`
table and the `delivery_log` table. -/
structure DBState where
  subs : List Subscription
  log : List LogRow
deriving DecidableEq, Repr

/-- Model of `NotifyRequest` from push.go: the JSON body of `POST /notify`. -/
structure NotifyRequest where
  topic : String
  title : String
  body : String
  icon : String
  badge : String
  tag : String
  url : String
deriving DecidableEq, Repr

/-- Model of `NotifyResult` from push.go: the aggregate returned by the fan-out. -/
structure NotifyResult where
  sent : Nat
  failed : Nat
  staleRemoved : Nat
deriving DecidableEq, Repr

/-- The outcome of one call of the external push primitive
(`webpush.SendNotification`): either a transport error (`err != nil`,
no response) or an HTTP status code from the push service. -/
inductive PushOutcome where
  | transportError (msg : String)
  | status (code : Nat)
deriving DecidableEq, Repr

/-- The `statusCode` computed in the goroutine body of `sendToSubscriptions`:
`0` on a transport error, otherwise the raw `resp.StatusCode`. -/
def statusCodeOf : PushOutcome → Nat
  | .transportError _ => 0
  | .status code => code

/-- The `errMsg` computed in the goroutine body: `err.Error()` on a transport
error, otherwise the empty string. -/
def errMsgOf : PushOutcome → String
  | .transportError msg => msg
  | .status _ => ""

/-- The test `err == nil` in the goroutine body. -/
def isOk : PushOutcome → Bool
  | .transportError _ => false
  | .status _ => true

/-- The flag `stale := statusCode == http.StatusNotFound || statusCode == http.StatusGone`
(push.go): the endpoint is gone permanently. -/
def isStale (o : PushOutcome) : Bool :=
  statusCodeOf o == 404 || statusCodeOf o == 410

/-- The flag `sent := err == nil && statusCode >= 200 && statusCode < 300` (push.go). -/
def isSent (o : PushOutcome) : Bool :=
  isOk o && 200 ≤ statusCodeOf o && statusCodeOf o < 300

/-- The per-delivery record sent over the `results` channel in
`sendToSubscriptions`. -/
structure DeliveryResult where
  sent : Bool
  staleRemoved : Bool
deriving DecidableEq, Repr

/-- One step of the result-collection loop of `sendToSubscriptions`:
`if r.sent { nr.Sent++ } else if !r.staleRemoved { nr.Failed++ }` and then
`if r.staleRemoved { nr.StaleRemoved++; nr.Failed++ }`. -/
def aggregateStep (nr : NotifyResult) (r : DeliveryResult) : NotifyResult :=
  let nr :=
    if r.sent then { nr with sent := nr.sent + 1 }
    else if !r.staleRemoved then { nr with failed := nr.failed + 1 }
    else nr
  if r.staleRemoved then
    { nr with staleRemoved := nr.staleRemoved + 1, failed := nr.failed + 1 }
  else nr

/-- The result-collection loop of `sendToSubscriptions`: fold the channel
reads into a `NotifyResult` starting from the zero value. -/
def aggregate (rs : List DeliveryResult) : NotifyResult :=
  rs.foldl aggregateStep ⟨0, 0, 0⟩

/-- The per-delivery classification shipped on the channel by one
goroutine, given the primitive's outcome. -/
def classify (o : PushOutcome) : DeliveryResult :=
  ⟨isSent o, isStale o⟩

/-- A JSON-like value, enough to model the `map[string]any` payload built
by `pushPayload` (push.go). Object fields are kept in the order the Go
code inserts them; JSON key order is immaterial to the claims. -/
inductive JVal where
  | str (s : String)
  | num (n : Nat)
  | obj (fields : List (String × JVal))
deriving Repr

/-- The `notification` map built by `pushPayload` (push.go): `title`
always, then `body`, `icon`, `badge`, `tag` each added only when the
corresponding request field is non-empty, and `data = {"url": req.URL}`
added only when `req.URL` is non-empty. -/
def notificationFields (req : NotifyRequest) : List (String × JVal) :=
  [("title", JVal.str req.title)]
    ++ (if req.body ≠ "" then [("body", JVal.str req.body)] else [])
    ++ (if req.icon ≠ "" then [("icon", JVal.str req.icon)] else [])
    ++ (if req.badge ≠ "" then [("badge", JVal.str req.badge)] else [])
    ++ (if req.tag ≠ "" then [("tag", JVal.str req.tag)] else [])
    ++ (if req.url ≠ ""
        then [("data", JVal.obj [("url", JVal.str req.url)])] else [])

/-- Field lookup in an object value (the JSON object's key access). -/
def JVal.lookupObj : JVal → String → Option JVal
  | .obj fields, k => fields.lookup k
  | _, _ => none

/-- Model of `pushPayload` (push.go): the push-ready payload blob, a Declarative
Web Push envelope `{"web_push": 8030, "notification": {...}}`. -/
def pushPayload (req : NotifyRequest) : JVal :=
  JVal.obj [("web_push", JVal.num 8030),
            ("notification", JVal.obj (notificationFields req))]

/-- Model of `DeleteSubscriptionByID` (db layer):
`DELETE FROM subscriptions WHERE id = ?`. -/
def deleteSubscriptionByID (subs : List Subscription) (i : String) :
    List Subscription :=
  subs.filter (fun s => s.id ≠ i)

/-- Model of `LogDelivery` (db layer): `INSERT INTO delivery_log
(subscription_id, status_code, error) VALUES (?, ?, ?)`; `sent_at`
defaults to the current time. -/
def logDelivery (log : List LogRow) (subId : String) (now : Int)
    (code : Nat) (msg : String) : List LogRow :=
  log ++ [⟨subId, now, code, msg⟩]

/-- The body of one delivery goroutine of `sendToSubscriptions` (push.go),
after the push primitive returned outcome `o` for subscriber `s`:
compute `statusCode`/`errMsg`, append one delivery-log row, then, exactly
when the status is 404 or 410, delete the subscriber by id
(log-then-evict order), and ship the classification on the channel. -/
def dispatchOne (now : Int) (st : DBState) (s : Subscription)
    (o : PushOutcome) : DBState × DeliveryResult :=
  let st1 : DBState :=
    { st with log := logDelivery st.log s.id now (statusCodeOf o) (errMsgOf o) }
  let st2 : DBState :=
    if isStale o then { st1 with subs := deleteSubscriptionByID st1.subs s.id }
    else st1
  (st2, classify o)

/-- The whole batch of delivery goroutines, sequentialised: each
subscriber of the batch is dispatched exactly once, paired with the
outcome the push primitive returned for it, threading the database state
and collecting the per-delivery channel messages in order. -/
def runDispatches (now : Int) (st : DBState) :
    List (Subscription × PushOutcome) → DBState × List DeliveryResult
  | [] => (st, [])
  | (s, o) :: rest =>
      let step := dispatchOne now st s o
      let tail := runDispatches now step.1 rest
      (tail.1, step.2 :: tail.2)

/-- Model of `sendToSubscriptions` (push.go): build the single payload blob once,
dispatch every subscriber of `subs` through the push primitive (the
primitive's outcomes are the oracle list `os`, positionally), and fold
the channel into the aggregate `NotifyResult`. Returns the final
database state, the aggregate, and the list of dispatches actually made
(subscriber paired with the payload blob it was sent). -/
def sendToSubscriptions (now : Int) (st : DBState)
    (subs : List Subscription) (os : List PushOutcome) (req : NotifyRequest) :
    DBState × NotifyResult × List (Subscription × JVal) :=
  let payload := pushPayload req
  let run := runDispatches now st (subs.zip os)
  (run.1, aggregate run.2, (subs.zip os).map (fun p => (p.1, payload)))

/-- Model of `GetSubscriptionsByTopic` (db layer): all rows when `topic` is empty,
otherwise `WHERE topic = ?`. -/
def getSubscriptionsByTopic (subs : List Subscription) (topic : String) :
    List Subscription :=
  if topic = "" then subs else subs.filter (fun s => s.topic = topic)

/-- A storage failure reading or writing the database. -/
structure StorageError where
  msg : String
deriving DecidableEq, Repr

/-- Model of `SendNotifications` (push.go): fetch the subscriber set by topic and
fan out. The fetch either fails with a `StorageError` (`fetch = .error e`)
or yields the rows of `GetSubscriptionsByTopic`. On a fetch error the Go
code only logs it and returns the zero `NotifyResult{}`; no error value
reaches the caller. -/
def sendNotifications (now : Int) (st : DBState)
    (fetch : Except StorageError (List Subscription))
    (os : List PushOutcome) (req : NotifyRequest) : DBState × NotifyResult :=
  match fetch with
  | .error _ => (st, ⟨0, 0, 0⟩)
  | .ok subs =>
      let r := sendToSubscriptions now st subs os req
      (r.1, r.2.1)

/-- Model of `UpsertSubscription` (db layer). The SQL is
`INSERT INTO subscriptions ... ON CONFLICT(endpoint) DO UPDATE SET
topic = excluded.topic, key_p256dh = excluded.key_p256dh,
key_auth = excluded.key_auth`, followed by a read-back
`SELECT id FROM subscriptions WHERE endpoint = ?`, and
`created = (actualID == newID) && rows > 0` where `RowsAffected` is
always 1 for this statement. `newID` is the value produced by
`randomID()` (16 random bytes as lowercase hex), passed in here as a
parameter; `now` is the `created_at` default. -/
def upsertSubscription (subs : List Subscription) (newID now topic endpoint p256dh auth : String) :
    List Subscription × String × Bool :=
  let afterWrite :=
    if subs.any (fun s => s.endpoint == endpoint) then
      subs.map (fun s =>
        if s.endpoint == endpoint then
          { s with topic := topic, keyP256dh := p256dh, keyAuth := auth }
        else s)
    else subs ++ [⟨newID, topic, endpoint, p256dh, auth, now⟩]
  let actualID :=
    ((afterWrite.find? (fun s => s.endpoint == endpoint)).map Subscription.id).getD ""
  (afterWrite, actualID, actualID == newID)

/-- The `subscriptions` table's `UNIQUE(endpoint)` constraint: at most one
record per distinct endpoint. -/
def endpointsUnique (subs : List Subscription) : Prop :=
  subs.Pairwise (fun a b => a.endpoint ≠ b.endpoint)

/-- Go `time.Minute` in nanoseconds. -/
def goMinute : Int := 60 * 1000000000

/-- Go `time.Hour` in nanoseconds. -/
def goHour : Int := 3600 * 1000000000

/-- The largest Go `int64` value. -/
def maxInt64 : Int := 9223372036854775807

/-- Two's-complement reduction of an integer into the `int64` range, the
behaviour of overflowing Go integer arithmetic. -/
def wrap64 (z : Int) : Int := (z + 2 ^ 63) % 2 ^ 64 - 2 ^ 63

/-- Go `int64` multiplication (wraps on overflow). -/
def mul64 (a c : Int) : Int := wrap64 (a * c)

/-- Go `strconv.Atoi` applied to a non-empty all-digit string of value `n`
(the only shape `parseDuration` feeds it, so no sign or syntax error can
occur): on range overflow it returns `maxInt64` alongside an error that
`parseDuration` discards (`n, _ := strconv.Atoi(m[1])`). -/
def atoiDigits (n : Nat) : Int :=
  if (n : Int) ≤ maxInt64 then (n : Int) else maxInt64

/-- ASCII digit test, the `\d` class of Go's RE2 (no Unicode flag). -/
def isDigitChar (c : Char) : Bool := '0' ≤ c && c ≤ '9'

/-- Numeric value of a digit string (what `strconv.Atoi` parses). -/
def digitsVal (cs : List Char) : Nat :=
  cs.foldl (fun a c => a * 10 + (c.toNat - 48)) 0

/-- The regexp `^(\d+)([dhm])$` (handlers file): the whole string is one
or more ASCII digits followed by a single unit letter `d`, `h` or `m`;
returns the two submatches. -/
def durationReMatch (cs : List Char) : Option (List Char × Char) :=
  match cs.getLast? with
  | none => none
  | some u =>
      let ds := cs.dropLast
      if !ds.isEmpty && ds.all isDigitChar && (u == 'd' || u == 'h' || u == 'm')
      then some (ds, u) else none

/-- Model of `parseDuration` (handlers file): match the token against
`^(\d+)([dhm])$`, `Atoi` the magnitude (error ignored), and scale by the
unit with Go `int64` (= `time.Duration`) arithmetic:
`time.Duration(n) * 24 * time.Hour`, `time.Duration(n) * time.Hour`, or
`time.Duration(n) * time.Minute`. Result in nanoseconds. -/
def parseDuration (s : String) : Except String Int :=
  match durationReMatch s.data with
  | none => .error ("invalid duration " ++ s)
  | some (ds, u) =>
      let n := atoiDigits (digitsVal ds)
      if u == 'd' then .ok (mul64 (mul64 n 24) goHour)
      else if u == 'h' then .ok (mul64 n goHour)
      else .ok (mul64 n goMinute)

/-- Model of `PurgeDeliveryLog` (db layer):
`DELETE FROM delivery_log WHERE sent_at < cutoff` with
`cutoff := time.Now().UTC().Add(-olderThan)`, returning `RowsAffected`.
Timestamps are modelled at the one-second granularity at which the table
stores and compares them (`datetime('now')` text, and the cutoff is
formatted to seconds; same-format timestamp strings compare
chronologically), so `now` and `olderThan` are integer seconds here. -/
def purgeDeliveryLog (now olderThan : Int) (log : List LogRow) :
    List LogRow × Nat :=
  let cutoff := now - olderThan
  (log.filter (fun e => !decide (e.sentAt < cutoff)),
   (log.filter (fun e => decide (e.sentAt < cutoff))).length)

/-- Model of `HandlePurgeDeliveryLog` (handlers file), its storage part: parse the
`older_than` token and only on success run the purge; a malformed token
is rejected with the parser's error before any deletion is attempted.
(The nanosecond duration is brought to the purge's second granularity.) -/
def handlePurgeDeliveryLog (tok : String) (now : Int) (log : List LogRow) :
    Except String (List LogRow × Nat) :=
  match parseDuration tok with
  | .error e => .error e
  | .ok d => .ok (purgeDeliveryLog now (d / 1000000000) log)

/-- Big-endian value of a byte list (`math/big` `SetBytes`). -/
def beNat (bs : List Nat) : Nat :=
  bs.foldl (fun a d => a * 256 + d) 0

/-- Fixed-width big-endian byte encoding of `n` (`big.Int.FillBytes` on a
`k`-byte buffer; `elliptic.Marshal` pads coordinates the same way). -/
def beBytes : Nat → Nat → List Nat
  | 0, _ => []
  | k + 1, n => beBytes k (n / 256) ++ [n % 256]

/-- The P-256 field prime `2^256 - 2^224 + 2^192 + 2^96 - 1`. -/
def p256P : Nat :=
  115792089210356248762697446949407573530086143415290314195533631308867097853951

/-- The P-256 curve coefficient `b` (`a` is `-3`). -/
def p256B : Nat :=
  41058363725152142129326129780047268409114441015993725554835256314039467401291

/-- X coordinate of the P-256 base point. -/
def p256Gx : Nat :=
  48439561293906451759052585252797914202762949526041747995844080717082404635286

/-- Y coordinate of the P-256 base point. -/
def p256Gy : Nat :=
  36134250956749795798585127919587881956611106672985015071877198253568414405109

/-- The short-Weierstrass equation of P-256, `y² = x³ - 3x + b (mod p)`
(the check `elliptic.Unmarshal` performs on candidate points; `-3x` is
computed as `(p-3)·x`). -/
def onCurveP256 (x y : Nat) : Bool :=
  (y * y) % p256P == (x * x * x + (p256P - 3) * x + p256B) % p256P

/-- Go `elliptic.Marshal` for P-256: the uncompressed point,
`0x04 || X (32 bytes BE) || Y (32 bytes BE)`, 65 bytes. -/
def marshalP256 (x y : Nat) : List Nat :=
  4 :: (beBytes 32 x ++ beBytes 32 y)

/-- Go `elliptic.Unmarshal` for P-256: require 65 bytes starting with the
`0x04` tag, split off the two 32-byte coordinates, and accept only a
legitimate point (canonical field elements on the curve). -/
def unmarshalP256 (bs : List Nat) : Option (Nat × Nat) :=
  match bs with
  | 4 :: rest =>
      if rest.length == 64 then
        let x := beNat (rest.take 32)
        let y := beNat (rest.drop 32)
        if x < p256P && y < p256P && onCurveP256 x y then some (x, y) else none
      else none
  | _ => none

/-- The URL-safe base64 alphabet (`base64.RawURLEncoding`): value `n < 64`
to its character. -/
def b64Char (n : Nat) : Char :=
  if n < 26 then Char.ofNat (65 + n)
  else if n < 52 then Char.ofNat (97 + (n - 26))
  else if n < 62 then Char.ofNat (48 + (n - 52))
  else if n == 62 then '-'
  else '_'

/-- Inverse of the URL-safe base64 alphabet; `none` for a character
outside it (a `CorruptInputError` in Go). -/
def b64Val (c : Char) : Option Nat :=
  if 'A' ≤ c && c ≤ 'Z' then some (c.toNat - 65)
  else if 'a' ≤ c && c ≤ 'z' then some (c.toNat - 97 + 26)
  else if '0' ≤ c && c ≤ '9' then some (c.toNat - 48 + 52)
  else if c == '-' then some 62
  else if c == '_' then some 63
  else none

/-- Go `base64.RawURLEncoding.EncodeToString`: 3 bytes to 4 characters, with
an unpadded 2- or 3-character tail for 1 or 2 trailing bytes. -/
def b64Encode : List Nat → List Char
  | [] => []
  | [a] => [b64Char (a / 4), b64Char (a % 4 * 16)]
  | [a, c] => [b64Char (a / 4), b64Char (a % 4 * 16 + c / 16), b64Char (c % 16 * 4)]
  | a :: c :: d :: rest =>
      b64Char (a / 4) :: b64Char (a % 4 * 16 + c / 16) ::
      b64Char (c % 16 * 4 + d / 64) :: b64Char (d % 64) :: b64Encode rest

/-- Go `base64.RawURLEncoding.DecodeString`: 4 characters to 3 bytes, an
unpadded tail of 2 or 3 characters to 1 or 2 bytes; a single trailing
character or a character outside the alphabet is an error. (Like Go's
default decoder this is lenient about non-zero trailing bits.) -/
def b64Decode : List Char → Option (List Nat)
  | [] => some []
  | [_] => none
  | [c1, c2] => do
      let v1 ← b64Val c1
      let v2 ← b64Val c2
      pure [v1 * 4 + v2 / 16]
  | [c1, c2, c3] => do
      let v1 ← b64Val c1
      let v2 ← b64Val c2
      let v3 ← b64Val c3
      pure [v1 * 4 + v2 / 16, v2 % 16 * 16 + v3 / 4]
  | c1 :: c2 :: c3 :: c4 :: rest => do
      let v1 ← b64Val c1
      let v2 ← b64Val c2
      let v3 ← b64Val c3
      let v4 ← b64Val c4
      let tail ← b64Decode rest
      pure ([v1 * 4 + v2 / 16, v2 % 16 * 16 + v3 / 4, v3 % 4 * 64 + v4] ++ tail)

/-- Model of `GenerateVAPIDKeys` (vapid.go), as a function of the key material
`(x, y, d)` drawn by `ecdsa.GenerateKey`: the public key string is the
base64url of the uncompressed point, the private key string the base64url
of the raw 32-byte scalar. -/
def generateVAPIDKeys (x y d : Nat) : String × String :=
  (⟨b64Encode (marshalP256 x y)⟩, ⟨b64Encode (beBytes 32 d)⟩)

/-- Model of `ParseVAPIDKeys` (vapid.go): base64url-decode the public key and
`Unmarshal` it (failing if it is not a valid P-256 point), base64url-
decode the private key, and take its bytes as the scalar `D` with no
further validation. Returns the key pair `(X, Y, D)`. -/
def parseVAPIDKeys (publicKeyB64 privateKeyB64 : String) :
    Option (Nat × Nat × Nat) :=
  (b64Decode publicKeyB64.data).bind fun pubBytes =>
    (unmarshalP256 pubBytes).bind fun xy =>
      (b64Decode privateKeyB64.data).bind fun privBytes =>
        some (xy.1, xy.2, beNat privBytes)

/-- Modular exponentiation by squaring. The first argument is structural
fuel; `e` halvings always fit in `e + 1` steps. -/
def powModAux : Nat → Nat → Nat → Nat → Nat
  | 0, _, _, m => 1 % m
  | fuel + 1, base, e, m =>
      if e == 0 then 1 % m
      else
        let h := powModAux fuel (base * base % m) (e / 2) m
        if e % 2 == 1 then h * base % m else h

/-- Computes `base ^ e % m` by binary exponentiation. -/
def powMod (base e m : Nat) : Nat := powModAux (e + 1) base e m

/-- Inverse in the P-256 field, via Fermat: `z⁻¹ = z^(p-2) mod p`. -/
def invModP (z : Nat) : Nat := powMod (z % p256P) (p256P - 2) p256P

/-- Doubling of an affine P-256 point with reduced coordinates;
`none` is the point at infinity (reached only from `y = 0`, which does
not occur on P-256). Slope `(3x² - 3) / 2y` since `a = -3`. -/
def pointDouble (P : Nat × Nat) : Option (Nat × Nat) :=
  if P.2 % p256P == 0 then none
  else
    let l := (3 * P.1 * P.1 + (p256P - 3)) % p256P * invModP (2 * P.2 % p256P) % p256P
    let xr := (l * l + (p256P - P.1 % p256P) + (p256P - P.1 % p256P)) % p256P
    let yr := (l * ((P.1 + (p256P - xr)) % p256P) + (p256P - P.2 % p256P)) % p256P
    some (xr, yr)

/-- Addition of two affine P-256 points with reduced coordinates;
`none` is the point at infinity. -/
def pointAdd (P Q : Nat × Nat) : Option (Nat × Nat) :=
  if P.1 == Q.1 then
    (if (P.2 + Q.2) % p256P == 0 then none else pointDouble P)
  else
    let l := (Q.2 + (p256P - P.2 % p256P)) % p256P
               * invModP ((Q.1 + (p256P - P.1 % p256P)) % p256P) % p256P
    let xr := (l * l + (p256P - P.1 % p256P) + (p256P - Q.1 % p256P)) % p256P
    let yr := (l * ((P.1 + (p256P - xr)) % p256P) + (p256P - P.2 % p256P)) % p256P
    some (xr, yr)

/-- Group law lifted to `Option` points (`none` is the identity). -/
def optPointAdd : Option (Nat × Nat) → Option (Nat × Nat) → Option (Nat × Nat)
  | none, q => q
  | some P, none => some P
  | some P, some Q => pointAdd P Q



/-- Double-and-add; structural fuel (`k` halvings fit in `k + 1` steps).
`0 · P` is the point at infinity, `none`. -/
def scalarMultAux : Nat → (Nat × Nat) → Nat → Option (Nat × Nat)
  | 0, _, _ => none
  | fuel + 1, P, k =>
      if k == 0 then none
      else
        let rest :=
          match pointDouble P with
          | none => none
          | some p2 => scalarMultAux fuel p2 (k / 2)
        if k % 2 == 1 then optPointAdd (some P) rest else rest

/-- The map `k · G` on P-256, `G` the standard base point; `none` is the
point at infinity. A private scalar `d` and a public point correspond
exactly when the point is `d · G`. -/
def p256ScalarMult (k : Nat) : Option (Nat × Nat) :=
  scalarMultAux (k + 1) (p256Gx, p256Gy) k

/-- The relation: `d` is the private scalar matching the public point
`(x, y)`. -/
def scalarMatches (d x y : Nat) : Prop :=
  p256ScalarMult d = some (x, y)

/-- A demonstration notify request. -/
def demoReq : NotifyRequest := ⟨"", "Hello", "", "", "", "", ""⟩

/-- A demonstration subscriber. -/
def demoSubA : Subscription := ⟨"a1", "", "https://push.example/a", "pA", "kA", "t0"⟩

/-- A demonstration subscriber. -/
def demoSubB : Subscription := ⟨"b2", "", "https://push.example/b", "pB", "kB", "t0"⟩

/-- A demonstration subscriber. -/
def demoSubC : Subscription := ⟨"c3", "", "https://push.example/c", "pC", "kC", "t0"⟩

/-- A demonstration subscriber. -/
def demoSubD : Subscription := ⟨"d4", "", "https://push.example/d", "pD", "kD", "t0"⟩

/-- A demonstration subscriber on the `alerts` topic. -/
def demoSubAlerts : Subscription :=
  ⟨"e5", "alerts", "https://push.example/e", "pE", "kE", "t0"⟩

/-- The four-outcome batch of the spec's conservation example: one
success, one transport error, one stale (410), one generic 4xx. -/
def demoOutcomes : List PushOutcome :=
  [.status 200, .transportError "connection refused", .status 410, .status 400]

/-- The regexp shape of an accepted purge-age token: one or more ASCII
digits followed by a single unit letter. -/
def durTokenShape (s : String) (ds : List Char) (u : Char) : Prop :=
  s.data = ds ++ [u] ∧ ds ≠ [] ∧ (∀ c ∈ ds, isDigitChar c = true)
    ∧ (u = 'd' ∨ u = 'h' ∨ u = 'm')

lemma runDispatches_results (now : Int) (st : DBState)
    (ps : List (Subscription × PushOutcome)) :
    (runDispatches now st ps).2 = ps.map (fun q => classify q.2) := by
  induction ps generalizing st with
  | nil => rfl
  | cons q ps ih => rcases q with ⟨s, o⟩; simp [runDispatches, ih, dispatchOne]

lemma foldl_aggregateStep (rs : List DeliveryResult) (init : NotifyResult) :
    rs.foldl aggregateStep init =
      ⟨init.sent + rs.countP (fun r => r.sent),
       init.failed + rs.countP (fun r => !r.sent && !r.staleRemoved)
         + rs.countP (fun r => r.staleRemoved),
       init.staleRemoved + rs.countP (fun r => r.staleRemoved)⟩ := by
  induction rs generalizing init with
  | nil => simp
  | cons r rs ih =>
      rcases r with ⟨s, stale⟩
      cases s <;> cases stale <;>
        simp [aggregateStep, ih, List.countP_cons, NotifyResult.mk.injEq] <;>
        omega

lemma aggregate_eq (rs : List DeliveryResult) :
    aggregate rs =
      ⟨rs.countP (fun r => r.sent),
       rs.countP (fun r => !r.sent && !r.staleRemoved)
         + rs.countP (fun r => r.staleRemoved),
       rs.countP (fun r => r.staleRemoved)⟩ := by
  simpa [aggregate] using foldl_aggregateStep rs ⟨0, 0, 0⟩

lemma isStale_not_isSent (o : PushOutcome) : isStale o = true → isSent o = false := by
  cases o with
  | transportError m => simp [isSent, isOk]
  | status c =>
      simp only [isStale, isSent, statusCodeOf, isOk, Bool.or_eq_true, beq_iff_eq,
        Bool.and_eq_true, decide_eq_true_eq, true_and]
      intro h
      rcases h with h | h <;> subst h <;> simp

lemma countP_stale_split (os : List PushOutcome) :
    os.countP (fun o => !isSent o && !isStale o) + os.countP (fun o => isStale o)
      = os.countP (fun o => !isSent o) := by
  induction os with
  | nil => simp
  | cons o os ih =>
      have h := isStale_not_isSent o
      simp only [List.countP_cons]
      cases h1 : isSent o <;> cases h2 : isStale o <;> simp_all <;> omega

lemma countP_zip_snd : ∀ (subs : List Subscription) (os : List PushOutcome),
    subs.length = os.length → ∀ pred : PushOutcome → Bool,
    (subs.zip os).countP (fun q => pred q.2) = os.countP pred := by
  intro subs
  induction subs with
  | nil =>
      intro os h pred
      cases os with
      | nil => simp
      | cons o os => simp at h
  | cons s subs ih =>
      intro os h pred
      cases os with
      | nil => simp at h
      | cons o os =>
          simp [List.countP_cons, ih os (by simpa using h) pred]

lemma sendToSubscriptions_result (now : Int) (st : DBState)
    (subs : List Subscription) (os : List PushOutcome) (req : NotifyRequest)
    (hlen : subs.length = os.length) :
    (sendToSubscriptions now st subs os req).2.1 =
      ⟨os.countP (fun o => isSent o),
       os.countP (fun o => !isSent o && !isStale o) + os.countP (fun o => isStale o),
       os.countP (fun o => isStale o)⟩ := by
  show aggregate (runDispatches now st (subs.zip os)).2 = _
  rw [runDispatches_results, aggregate_eq]
  simp only [List.countP_map]
  have e1 : ((fun (r : DeliveryResult) => r.sent) ∘ fun (q : Subscription × PushOutcome) => classify q.2)
      = fun (q : Subscription × PushOutcome) => isSent q.2 := rfl
  have e2 : ((fun (r : DeliveryResult) => !r.sent && !r.staleRemoved) ∘ fun (q : Subscription × PushOutcome) => classify q.2)
      = fun (q : Subscription × PushOutcome) => (!isSent q.2 && !isStale q.2) := rfl
  have e3 : ((fun (r : DeliveryResult) => r.staleRemoved) ∘ fun (q : Subscription × PushOutcome) => classify q.2)
      = fun (q : Subscription × PushOutcome) => isStale q.2 := rfl
  rw [e1, e2, e3, countP_zip_snd subs os hlen,
     countP_zip_snd subs os hlen (fun o => !isSent o && !isStale o),
     countP_zip_snd subs os hlen isStale]

/-- C1: every delivery of a batch of `M` resolved subscribers is
classified into exactly one of success, stale (404/410) and other
failure; the aggregate has `sent` = number of successes, `staleRemoved` =
number of stale deliveries, `failed` = non-stale failures plus stale
deliveries (a stale delivery is never counted as sent), so
`sent + failed = M`; for the four-outcome batch
{success, transport error, 410, generic 4xx} the result is
`⟨1, 3, 1⟩`, and for an empty subscriber set it is `⟨0, 0, 0⟩`. -/
theorem fanout_aggregate_conservation (now : Int) (st : DBState)
    (subs : List Subscription) (os : List PushOutcome) (req : NotifyRequest)
    (hlen : subs.length = os.length) :
    (∀ o : PushOutcome, ¬(isSent o = true ∧ isStale o = true))
    ∧ (sendToSubscriptions now st subs os req).2.1 =
        ⟨os.countP (fun o => isSent o),
         os.countP (fun o => !isSent o && !isStale o)
           + os.countP (fun o => isStale o),
         os.countP (fun o => isStale o)⟩
    ∧ (sendToSubscriptions now st subs os req).2.1.sent
        + (sendToSubscriptions now st subs os req).2.1.failed = subs.length
    ∧ (sendToSubscriptions now st [demoSubA, demoSubB, demoSubC, demoSubD]
        demoOutcomes req).2.1 = ⟨1, 3, 1⟩
    ∧ (sendToSubscriptions now st [] [] req).2.1 = ⟨0, 0, 0⟩ := by
  have hres := sendToSubscriptions_result now st subs os req hlen
  refine ⟨?_, hres, ?_, ?_, rfl⟩
  · intro o ⟨h1, h2⟩
    have := isStale_not_isSent o h2
    simp_all
  · rw [hres]
    have hsplit := countP_stale_split os
    have htot := List.length_eq_countP_add_countP (fun o => isSent o) os
    simp only [decide_not, Bool.decide_eq_true] at htot
    simp only [hlen]
    omega
  · rw [sendToSubscriptions_result now st _ demoOutcomes req rfl]
    decide

/-- Witness for C1: the conservation theorem applied to the concrete
four-outcome batch. -/
theorem fanout_aggregate_conservation_witness :
    ([demoSubA, demoSubB, demoSubC, demoSubD] : List Subscription).length
      = demoOutcomes.length
    ∧ (sendToSubscriptions 0 ⟨[demoSubA, demoSubB, demoSubC, demoSubD], []⟩
        [demoSubA, demoSubB, demoSubC, demoSubD] demoOutcomes demoReq).2.1
        = ⟨1, 3, 1⟩ :=
  ⟨rfl,
   (fanout_aggregate_conservation 0 ⟨[demoSubA, demoSubB, demoSubC, demoSubD], []⟩
      [demoSubA, demoSubB, demoSubC, demoSubD] demoOutcomes demoReq rfl).2.2.2.1⟩

lemma find?_endpoint_unique (endpoint : String) :
    ∀ (subs : List Subscription), endpointsUnique subs →
    ∀ s₀ ∈ subs, s₀.endpoint = endpoint →
    subs.find? (fun s => s.endpoint == endpoint) = some s₀ := by
  intro subs
  induction subs with
  | nil => intro _ s₀ h; cases h
  | cons s rest ih =>
      intro huniq s₀ hmem hend
      rcases List.mem_cons.1 hmem with h | h
      · subst h
        simp [List.find?, hend]
      · have hne : s.endpoint ≠ s₀.endpoint :=
          (List.pairwise_cons.1 huniq).1 s₀ h
        have hpred : (s.endpoint == endpoint) = false := by
          simp only [beq_eq_false_iff_ne, ne_eq]
          intro hc
          exact hne (hc.trans hend.symm)
        simp [List.find?, hpred]
        exact ih (List.pairwise_cons.1 huniq).2 s₀ h hend

lemma find?_map_endpoint (endpoint : String) (g : Subscription → Subscription)
    (hg : ∀ s, (g s).endpoint = s.endpoint) :
    ∀ subs : List Subscription,
    (subs.map g).find? (fun s => s.endpoint == endpoint)
      = (subs.find? (fun s => s.endpoint == endpoint)).map g := by
  intro subs
  induction subs with
  | nil => rfl
  | cons s rest ih =>
      simp only [List.map_cons, List.find?]
      rw [hg s]
      cases h : (s.endpoint == endpoint) <;> simp [ih]

lemma pairwise_map_endpoint (g : Subscription → Subscription)
    (hg : ∀ s, (g s).endpoint = s.endpoint) (subs : List Subscription)
    (huniq : endpointsUnique subs) : endpointsUnique (subs.map g) := by
  unfold endpointsUnique at *
  rw [List.pairwise_map]
  refine huniq.imp ?_
  intro a c h
  rw [hg, hg]
  exact h

/-- C2: `upsert(topic, endpoint, p256dh, auth)` creates a new record with
the freshly generated id and returns `(newID, created = true)` when no
record exists for the endpoint; when one exists it updates that record's
topic and keys in place, preserves every stored id (no new id is minted),
and returns `(the original id, created = false)`; in both cases endpoint
uniqueness is preserved. -/
theorem upsert_semantics (subs : List Subscription)
    (newID now topic endpoint p256dh auth : String)
    (huniq : endpointsUnique subs)
    (hfresh : ∀ s ∈ subs, s.id ≠ newID) :
    ((∀ s ∈ subs, s.endpoint ≠ endpoint) →
      upsertSubscription subs newID now topic endpoint p256dh auth
        = (subs ++ [⟨newID, topic, endpoint, p256dh, auth, now⟩], newID, true))
    ∧ (∀ s₀ ∈ subs, s₀.endpoint = endpoint →
        (upsertSubscription subs newID now topic endpoint p256dh auth).2.1 = s₀.id
        ∧ (upsertSubscription subs newID now topic endpoint p256dh auth).2.2 = false
        ∧ (upsertSubscription subs newID now topic endpoint p256dh auth).1
            = subs.map (fun s => if s.endpoint == endpoint then
                { s with topic := topic, keyP256dh := p256dh, keyAuth := auth }
              else s)
        ∧ ((upsertSubscription subs newID now topic endpoint p256dh auth).1).map
              Subscription.id
            = subs.map Subscription.id)
    ∧ endpointsUnique
        (upsertSubscription subs newID now topic endpoint p256dh auth).1 := by
  have hg : ∀ s : Subscription,
      ((if s.endpoint == endpoint then
          { s with topic := topic, keyP256dh := p256dh, keyAuth := auth }
        else s) : Subscription).endpoint = s.endpoint := by
    intro s; split <;> rfl
  have hgid : ∀ s : Subscription,
      ((if s.endpoint == endpoint then
          { s with topic := topic, keyP256dh := p256dh, keyAuth := auth }
        else s) : Subscription).id = s.id := by
    intro s; split <;> rfl
  refine ⟨?_, ?_, ?_⟩
  · -- insert branch
    intro hnone
    have hany : subs.any (fun s => s.endpoint == endpoint) = false := by
      rw [List.any_eq_false]
      intro s hs
      simp only [beq_iff_eq]
      exact fun hc => hnone s hs hc
    have hfind : subs.find? (fun s => s.endpoint == endpoint) = none := by
      rw [List.find?_eq_none]
      intro s hs
      simp only [beq_iff_eq]
      exact fun hc => hnone s hs hc
    simp only [upsertSubscription, hany, Bool.false_eq_true, if_false,
      List.find?_append, hfind, Option.none_or]
    simp [List.find?, beq_self_eq_true]
  · -- update branch
    intro s₀ hmem hend
    have hany : subs.any (fun s => s.endpoint == endpoint) = true := by
      rw [List.any_eq_true]
      exact ⟨s₀, hmem, by simp [hend]⟩
    have hfind := find?_endpoint_unique endpoint subs huniq s₀ hmem hend
    have hmapfind := find?_map_endpoint endpoint _ hg subs
    simp only [upsertSubscription, hany, if_true]
    rw [hmapfind, hfind]
    refine ⟨?_, ?_, trivial, ?_⟩
    · simp only [Option.map_some', Option.getD_some]
      exact hgid s₀
    · simp only [Option.map_some', Option.getD_some]
      rw [hgid s₀]
      exact beq_eq_false_iff_ne.mpr (hfresh s₀ hmem)
    · simp only [List.map_map]
      apply List.map_congr_left
      intro s _
      simp only [Function.comp_apply]
      exact hgid s
  · -- uniqueness preserved
    by_cases hex : subs.any (fun s => s.endpoint == endpoint) = true
    · simp only [upsertSubscription, hex, if_true]
      exact pairwise_map_endpoint _ hg subs huniq
    · have hex' : subs.any (fun s => s.endpoint == endpoint) = false := by
        simpa using hex
      have hnone : ∀ s ∈ subs, s.endpoint ≠ endpoint := by
        rw [List.any_eq_false] at hex'
        intro s hs hc
        exact hex' s hs (by simp [hc])
      simp only [upsertSubscription, hex', Bool.false_eq_true, if_false]
      rw [endpointsUnique, List.pairwise_append]
      refine ⟨huniq, by simp, ?_⟩
      intro a ha c hc
      simp only [List.mem_singleton] at hc
      subst hc
      exact hnone a ha

/-- Witness for C2: re-registering `demoSubA`'s endpoint with new topic
and keys returns its original id and `created = false`. -/
theorem upsert_semantics_witness :
    (upsertSubscription [demoSubA, demoSubB] "ff01" "t1" "news"
        "https://push.example/a" "p2" "k2").2.1 = "a1"
    ∧ (upsertSubscription [demoSubA, demoSubB] "ff01" "t1" "news"
        "https://push.example/a" "p2" "k2").2.2 = false := by
  have h := (upsert_semantics [demoSubA, demoSubB] "ff01" "t1" "news"
      "https://push.example/a" "p2" "k2" (by unfold endpointsUnique; decide) (by decide)).2.1
      demoSubA (by simp) rfl
  exact ⟨h.1, h.2.1⟩

lemma dispatchOne_log (now : Int) (st : DBState) (s : Subscription)
    (o : PushOutcome) :
    (dispatchOne now st s o).1.log
      = st.log ++ [⟨s.id, now, statusCodeOf o, errMsgOf o⟩] := by
  simp only [dispatchOne, logDelivery]
  split <;> rfl

lemma dispatchOne_subs_sub (now : Int) (st : DBState) (s : Subscription)
    (o : PushOutcome) :
    ∀ t ∈ (dispatchOne now st s o).1.subs, t ∈ st.subs := by
  intro t ht
  simp only [dispatchOne] at ht
  split at ht
  · exact (List.mem_filter.1 ht).1
  · exact ht

lemma runDispatches_log (now : Int) (st : DBState)
    (ps : List (Subscription × PushOutcome)) :
    (runDispatches now st ps).1.log
      = st.log ++ ps.map
          (fun q => (⟨q.1.id, now, statusCodeOf q.2, errMsgOf q.2⟩ : LogRow)) := by
  induction ps generalizing st with
  | nil => simp [runDispatches]
  | cons q ps ih =>
      rcases q with ⟨s, o⟩
      show (runDispatches now (dispatchOne now st s o).1 ps).1.log = _
      rw [ih, dispatchOne_log]
      simp

lemma runDispatches_subs_sub (now : Int) (st : DBState)
    (ps : List (Subscription × PushOutcome)) :
    ∀ t ∈ (runDispatches now st ps).1.subs, t ∈ st.subs := by
  induction ps generalizing st with
  | nil => intro t ht; exact ht
  | cons q ps ih =>
      rcases q with ⟨s, o⟩
      intro t ht
      exact dispatchOne_subs_sub now st s o t
        (ih (dispatchOne now st s o).1 t ht)

lemma filter_id_single (s : Subscription) (o : PushOutcome) :
    ∀ ps : List (Subscription × PushOutcome), (s, o) ∈ ps →
    (ps.map (fun q => q.1.id)).Nodup →
    ps.filter (fun q => q.1.id == s.id) = [(s, o)] := by
  intro ps
  induction ps with
  | nil => intro h; cases h
  | cons q ps ih =>
      intro hmem hids
      rw [List.map_cons, List.nodup_cons] at hids
      rcases List.mem_cons.1 hmem with h | h
      · subst h
        simp only [List.filter_cons, beq_self_eq_true, if_true]
        have : ps.filter (fun q => q.1.id == s.id) = [] := by
          rw [List.filter_eq_nil_iff]
          intro q hq
          simp only [beq_iff_eq]
          intro hc
          exact hids.1 (hc ▸ List.mem_map_of_mem (fun q => q.1.id) hq)
        rw [this]
      · have hsid : s.id ∈ ps.map (fun q => q.1.id) := by
          exact List.mem_map_of_mem (fun q => q.1.id) h
        have hne : (q.1.id == s.id) = false := by
          simp only [beq_eq_false_iff_ne, ne_eq]
          intro hc
          exact hids.1 (hc ▸ hsid)
        simp only [List.filter_cons, hne, Bool.false_eq_true, if_false]
        exact ih h hids.2

lemma stale_evicted (now : Int) (s : Subscription) (o : PushOutcome)
    (hstale : isStale o = true) :
    ∀ (ps : List (Subscription × PushOutcome)) (st : DBState), (s, o) ∈ ps →
    ∀ t ∈ (runDispatches now st ps).1.subs, t.id ≠ s.id := by
  intro ps
  induction ps with
  | nil => intro st h; cases h
  | cons q ps ih =>
      intro st hmem t ht
      rcases List.mem_cons.1 hmem with h | h
      · have ht' : t ∈ (runDispatches now (dispatchOne now st q.1 q.2).1 ps).1.subs := ht
        have h2 := runDispatches_subs_sub now (dispatchOne now st q.1 q.2).1 ps t ht'
        rw [← h] at h2
        simp only [dispatchOne, hstale, if_true, deleteSubscriptionByID] at h2
        have := List.of_mem_filter h2
        simpa using this
      · exact ih (dispatchOne now st q.1 q.2).1 h t ht

/-- C3: every dispatched subscriber gets exactly one delivery-log row
appended, recording its id, the raw status code (0 for a transport error)
and the error text; and a subscriber whose delivery came back 404/410 is
deleted after logging, so afterwards it is absent from the subscriptions
table while exactly one log row with that status exists for it. -/
theorem dispatch_logging_and_stale_eviction (now : Int) (st : DBState)
    (subs : List Subscription) (os : List PushOutcome) (req : NotifyRequest)
    (s : Subscription) (o : PushOutcome)
    (hmem : (s, o) ∈ subs.zip os)
    (hids : ((subs.zip os).map (fun q => q.1.id)).Nodup)
    (hlog0 : ∀ e ∈ st.log, e.subscriptionId ≠ s.id) :
    (sendToSubscriptions now st subs os req).1.log
      = st.log ++ (subs.zip os).map
          (fun q => (⟨q.1.id, now, statusCodeOf q.2, errMsgOf q.2⟩ : LogRow))
    ∧ (isStale o = true →
        ∀ t ∈ (sendToSubscriptions now st subs os req).1.subs, t.id ≠ s.id)
    ∧ (sendToSubscriptions now st subs os req).1.log.filter
        (fun e => e.subscriptionId == s.id)
        = [⟨s.id, now, statusCodeOf o, errMsgOf o⟩] := by
  have hstate : (sendToSubscriptions now st subs os req).1
      = (runDispatches now st (subs.zip os)).1 := rfl
  refine ⟨?_, ?_, ?_⟩
  · rw [hstate, runDispatches_log]
  · intro hstale t ht
    rw [hstate] at ht
    exact stale_evicted now s o hstale (subs.zip os) st hmem t ht
  · rw [hstate, runDispatches_log, List.filter_append]
    have h1 : st.log.filter (fun e => e.subscriptionId == s.id) = [] := by
      rw [List.filter_eq_nil_iff]
      intro e he
      simp only [beq_iff_eq]
      exact hlog0 e he
    rw [h1, List.filter_map]
    have hcomp : ((fun e => e.subscriptionId == s.id) ∘
        (fun (q : Subscription × PushOutcome) =>
          (⟨q.1.id, now, statusCodeOf q.2, errMsgOf q.2⟩ : LogRow)))
        = fun q => q.1.id == s.id := rfl
    rw [hcomp, filter_id_single s o (subs.zip os) hmem hids]
    rfl

/-- Witness for C3: in a two-subscriber batch where `demoSubA` comes back
410, the final log holds exactly one row for `demoSubA` with status 410. -/
theorem dispatch_logging_and_stale_eviction_witness :
    (sendToSubscriptions 5 ⟨[demoSubA, demoSubB], []⟩ [demoSubA, demoSubB]
        [.status 410, .status 200] demoReq).1.log.filter
        (fun e => e.subscriptionId == "a1")
      = [⟨"a1", 5, 410, ""⟩] := by
  have h := (dispatch_logging_and_stale_eviction 5 ⟨[demoSubA, demoSubB], []⟩
      [demoSubA, demoSubB] [.status 410, .status 200] demoReq
      demoSubA (.status 410) (by decide) (by decide) (by simp)).2.2
  exact h

/-- Counterexample for C4: a failing subscriber fetch produces exactly the
same observable result as a successful fan-out over zero subscribers — the
zero aggregate with the database untouched — so the storage error is not
surfaced to the caller of `SendNotifications` and the two cases cannot be
distinguished. -/
theorem storage_error_not_surfaced :
    sendNotifications 0 ⟨[demoSubA], []⟩ (.error ⟨"database is locked"⟩) []
        demoReq
      = sendNotifications 0 ⟨[demoSubA], []⟩ (.ok []) [] demoReq
    ∧ sendNotifications 0 ⟨[demoSubA], []⟩ (.error ⟨"database is locked"⟩) []
        demoReq
      = (⟨[demoSubA], []⟩, ⟨0, 0, 0⟩) := ⟨rfl, rfl⟩

/-- C4 (amended): when the subscriber fetch fails with a storage error,
`SendNotifications` only logs it and returns the zero aggregate `{0,0,0}`
with the database untouched, which is identical to the result of a
successful fan-out over zero subscribers; no error value reaches the
caller. -/
theorem storage_error_swallowed (now : Int) (st : DBState) (e : StorageError)
    (os : List PushOutcome) (req : NotifyRequest) :
    sendNotifications now st (.error e) os req = (st, ⟨0, 0, 0⟩)
    ∧ sendNotifications now st (.ok []) os req = (st, ⟨0, 0, 0⟩) :=
  ⟨rfl, rfl⟩

/-- C6: `purge(olderThan)` deletes exactly the log rows whose `sent_at` is
strictly before `now - olderThan` (the survivors are the original list
with the old rows removed, order intact), returns the number deleted, and
deleted + kept = total; for rows aged 10, 29 and 31 days and
`olderThan` = 30 days, exactly the 31-day row is deleted and the count
is 1. -/
theorem purge_boundary (now olderThan : Int) (log : List LogRow) :
    (∀ e : LogRow, e ∈ (purgeDeliveryLog now olderThan log).1 ↔
        e ∈ log ∧ ¬(e.sentAt < now - olderThan))
    ∧ (purgeDeliveryLog now olderThan log).1.Sublist log
    ∧ (purgeDeliveryLog now olderThan log).2
        = (log.filter (fun e => decide (e.sentAt < now - olderThan))).length
    ∧ (purgeDeliveryLog now olderThan log).2
        + (purgeDeliveryLog now olderThan log).1.length = log.length
    ∧ purgeDeliveryLog 8640000 2592000
        [⟨"x", 7776000, 201, ""⟩, ⟨"y", 6134400, 201, ""⟩,
         ⟨"z", 5961600, 201, ""⟩]
        = ([⟨"x", 7776000, 201, ""⟩, ⟨"y", 6134400, 201, ""⟩], 1) := by
  refine ⟨?_, ?_, rfl, ?_, by decide⟩
  · intro e
    simp [purgeDeliveryLog, List.mem_filter]
  · exact List.filter_sublist log
  · show (log.filter (fun e => decide (e.sentAt < now - olderThan))).length
        + (log.filter (fun e => !decide (e.sentAt < now - olderThan))).length
        = log.length
    exact (List.length_eq_length_filter_add (l := log) (fun (e : LogRow) => decide (e.sentAt < now - olderThan))).symm


/-- C8: a notify with non-empty topic dispatches to exactly the
subscribers whose stored topic equals the requested topic, and a notify
with empty topic dispatches to all subscribers: membership in the
resolved set is `s ∈ subs ∧ (topic = "" ∨ s.topic = topic)`, the empty
topic resolves the whole table, and the fan-out's dispatch list is
exactly the resolved set. -/
theorem topic_filtering (subs : List Subscription) (topic : String)
    (now : Int) (st : DBState) (os : List PushOutcome) (req : NotifyRequest)
    (hlen : (getSubscriptionsByTopic subs topic).length = os.length) :
    (∀ s : Subscription, s ∈ getSubscriptionsByTopic subs topic ↔
        s ∈ subs ∧ (topic = "" ∨ s.topic = topic))
    ∧ getSubscriptionsByTopic subs "" = subs
    ∧ ((sendToSubscriptions now st (getSubscriptionsByTopic subs topic) os
          req).2.2).map Prod.fst = getSubscriptionsByTopic subs topic := by
  refine ⟨?_, rfl, ?_⟩
  · intro s
    by_cases h : topic = ""
    · subst h
      simp [getSubscriptionsByTopic]
    · simp [getSubscriptionsByTopic, h, List.mem_filter]
  · show (((getSubscriptionsByTopic subs topic).zip os).map
        (fun p => (p.1, pushPayload req))).map Prod.fst = _
    rw [List.map_map]
    have : (Prod.fst ∘ fun p : Subscription × PushOutcome =>
        (p.1, pushPayload req)) = Prod.fst := rfl
    rw [this]
    exact List.map_fst_zip _ _ (le_of_eq hlen)

/-- Witness for C8: with one `alerts` subscriber and one untopiced
subscriber, `notify(topic="alerts")` dispatches to exactly the `alerts`
subscriber. -/
theorem topic_filtering_witness :
    ((sendToSubscriptions 0 ⟨[demoSubAlerts, demoSubB], []⟩
        (getSubscriptionsByTopic [demoSubAlerts, demoSubB] "alerts")
        [.status 201] demoReq).2.2).map Prod.fst = [demoSubAlerts] :=
  (topic_filtering [demoSubAlerts, demoSubB] "alerts" 0
    ⟨[demoSubAlerts, demoSubB], []⟩ [.status 201] demoReq (by decide)).2.2

/-- C9: one payload blob is built once and shared by every dispatch of the
batch, and the `notification` envelope holds the required `title`, holds
`body`, `icon`, `badge`, `tag` exactly when the corresponding request
field is non-empty, and holds the url nested as `data.url` exactly when
`url` is non-empty. -/
theorem payload_envelope (req : NotifyRequest) (now : Int) (st : DBState)
    (subs : List Subscription) (os : List PushOutcome) :
    (∀ d ∈ (sendToSubscriptions now st subs os req).2.2,
        d.2 = pushPayload req)
    ∧ (pushPayload req).lookupObj "notification"
        = some (JVal.obj (notificationFields req))
    ∧ (notificationFields req).lookup "title" = some (JVal.str req.title)
    ∧ ((notificationFields req).lookup "body"
        = if req.body ≠ "" then some (JVal.str req.body) else none)
    ∧ ((notificationFields req).lookup "icon"
        = if req.icon ≠ "" then some (JVal.str req.icon) else none)
    ∧ ((notificationFields req).lookup "badge"
        = if req.badge ≠ "" then some (JVal.str req.badge) else none)
    ∧ ((notificationFields req).lookup "tag"
        = if req.tag ≠ "" then some (JVal.str req.tag) else none)
    ∧ ((notificationFields req).lookup "data"
        = if req.url ≠ ""
          then some (JVal.obj [("url", JVal.str req.url)]) else none) := by
  refine ⟨?_, rfl, ?_, ?_, ?_, ?_, ?_, ?_⟩
  · intro d hd
    rcases List.mem_map.1 hd with ⟨p, _, hp⟩
    exact hp ▸ rfl
  all_goals
    simp only [notificationFields]
    split_ifs <;> simp [List.lookup]

lemma wrap64_eq_of_bounds (z : Int) (h1 : -(2 ^ 63) ≤ z) (h2 : z < 2 ^ 63) :
    wrap64 z = z := by
  unfold wrap64
  rw [Int.emod_eq_of_lt (by omega) (by omega)]
  omega

lemma durationReMatch_concat (ds : List Char) (u : Char) (hne : ds ≠ [])
    (hdig : ∀ c ∈ ds, isDigitChar c = true)
    (hu : u = 'd' ∨ u = 'h' ∨ u = 'm') :
    durationReMatch (ds ++ [u]) = some (ds, u) := by
  unfold durationReMatch
  rw [List.getLast?_concat, List.dropLast_concat]
  have h1 : ds.isEmpty = false := by
    cases ds with
    | nil => exact absurd rfl hne
    | cons c cs => rfl
  have h2 : ds.all isDigitChar = true := List.all_eq_true.mpr hdig
  have h3 : (u == 'd' || u == 'h' || u == 'm') = true := by
    rcases hu with h | h | h <;> subst h <;> rfl
  simp [h1, h2, h3]

lemma durationReMatch_some (cs ds : List Char) (u : Char)
    (h : durationReMatch cs = some (ds, u)) :
    cs = ds ++ [u] ∧ ds ≠ [] ∧ (∀ c ∈ ds, isDigitChar c = true)
      ∧ (u = 'd' ∨ u = 'h' ∨ u = 'm') := by
  unfold durationReMatch at h
  cases hlast : cs.getLast? with
  | none =>
      simp only [hlast] at h
      cases h
  | some u' =>
      simp only [hlast] at h
      by_cases hcond : (!cs.dropLast.isEmpty && cs.dropLast.all isDigitChar
          && (u' == 'd' || u' == 'h' || u' == 'm')) = true
      · rw [if_pos hcond] at h
        injection h with h'
        injection h' with hds hu
        subst hds
        subst hu
        rcases List.getLast?_eq_some_iff.mp hlast with ⟨l', hl⟩
        subst hl
        rw [List.dropLast_concat] at hcond ⊢
        simp only [Bool.and_eq_true, Bool.not_eq_true', Bool.or_eq_true,
          beq_iff_eq] at hcond
        refine ⟨rfl, ?_, ?_, by tauto⟩
        · intro hc
          rw [hc] at hcond
          exact absurd hcond.1.1 (by simp [List.isEmpty])
        · exact List.all_eq_true.mp hcond.1.2
      · rw [if_neg hcond] at h
        cases h

/-- Counterexample for C5: the token `"9223372036854775807d"` matches the
regexp and is accepted, but the returned duration is not
9223372036854775807 days — the `int64` multiplication wraps, producing
minus one day in nanoseconds. -/
theorem parse_duration_overflow :
    parseDuration "9223372036854775807d" = .ok (-86400000000000)
    ∧ (-86400000000000 : Int)
        ≠ (9223372036854775807 : Int) * 24 * goHour := by
  constructor
  · rfl
  · decide

lemma parseDuration_match_d (s : String) (ds : List Char)
    (hm : durationReMatch s.data = some (ds, 'd')) :
    parseDuration s = .ok (mul64 (mul64 (atoiDigits (digitsVal ds)) 24) goHour) := by
  unfold parseDuration
  rw [hm]
  rfl

lemma parseDuration_match_h (s : String) (ds : List Char)
    (hm : durationReMatch s.data = some (ds, 'h')) :
    parseDuration s = .ok (mul64 (atoiDigits (digitsVal ds)) goHour) := by
  unfold parseDuration
  rw [hm]
  rfl

lemma parseDuration_match_m (s : String) (ds : List Char)
    (hm : durationReMatch s.data = some (ds, 'm')) :
    parseDuration s = .ok (mul64 (atoiDigits (digitsVal ds)) goMinute) := by
  unfold parseDuration
  rw [hm]
  rfl

lemma mul64_exact (n c : Int) (h0 : 0 ≤ n * c) (hfit : n * c ≤ maxInt64) :
    mul64 n c = n * c := by
  unfold mul64
  apply wrap64_eq_of_bounds
  · omega
  · simp only [maxInt64] at hfit
    omega

lemma atoiDigits_exact (n : Nat) (hfit : (n : Int) ≤ maxInt64) :
    atoiDigits n = (n : Int) := by
  unfold atoiDigits
  rw [if_pos hfit]


/-- C5 (amended): the purge-age parser succeeds exactly on a single
integer magnitude followed by one unit among `d`, `h`, `m`; on success
the duration is `N` days/hours/minutes computed in Go's wrapping `int64`
arithmetic with `Atoi` clamping `N` to `2^63 - 1` on range overflow
(error ignored), which coincides with the exact `N * unit` whenever that
product fits in `int64`; every other form fails with the
invalid-duration error and the purge handler rejects it before any
deletion is attempted. -/
theorem parse_duration_token (s : String) (now : Int) (log : List LogRow) :
    ((∃ v, parseDuration s = .ok v) ↔ ∃ ds u, durTokenShape s ds u)
    ∧ (∀ ds : List Char, ds ≠ [] → (∀ c ∈ ds, isDigitChar c = true) →
        (s.data = ds ++ ['d'] →
          parseDuration s
            = .ok (mul64 (mul64 (atoiDigits (digitsVal ds)) 24) goHour)
          ∧ ((digitsVal ds : Int) * 24 * goHour ≤ maxInt64 →
              parseDuration s = .ok ((digitsVal ds : Int) * 24 * goHour)))
        ∧ (s.data = ds ++ ['h'] →
          parseDuration s = .ok (mul64 (atoiDigits (digitsVal ds)) goHour)
          ∧ ((digitsVal ds : Int) * goHour ≤ maxInt64 →
              parseDuration s = .ok ((digitsVal ds : Int) * goHour)))
        ∧ (s.data = ds ++ ['m'] →
          parseDuration s = .ok (mul64 (atoiDigits (digitsVal ds)) goMinute)
          ∧ ((digitsVal ds : Int) * goMinute ≤ maxInt64 →
              parseDuration s = .ok ((digitsVal ds : Int) * goMinute))))
    ∧ ((∀ ds u, ¬durTokenShape s ds u) →
        parseDuration s = .error ("invalid duration " ++ s)
          ∧ handlePurgeDeliveryLog s now log
              = .error ("invalid duration " ++ s)) := by
  have hgH : (1 : Int) ≤ goHour := by norm_num [goHour]
  have hgM : (1 : Int) ≤ goMinute := by norm_num [goMinute]
  have hgH0 : (0 : Int) ≤ goHour := le_trans zero_le_one hgH
  have hgM0 : (0 : Int) ≤ goMinute := le_trans zero_le_one hgM
  refine ⟨⟨?_, ?_⟩, ?_, ?_⟩
  · -- success implies shape
    rintro ⟨v, hv⟩
    cases hm : durationReMatch s.data with
    | none =>
        unfold parseDuration at hv
        rw [hm] at hv
        cases hv
    | some q =>
        rcases q with ⟨ds, u⟩
        exact ⟨ds, u, durationReMatch_some s.data ds u hm⟩
  · -- shape implies success
    rintro ⟨ds, u, hdata, hne, hdig, hu⟩
    have hm : durationReMatch s.data = some (ds, u) := by
      rw [hdata]
      exact durationReMatch_concat ds u hne hdig hu
    rcases hu with h | h | h <;> subst h
    · exact ⟨_, parseDuration_match_d s ds hm⟩
    · exact ⟨_, parseDuration_match_h s ds hm⟩
    · exact ⟨_, parseDuration_match_m s ds hm⟩
  · -- success values
    intro ds hne hdig
    have hn0 : (0 : Int) ≤ (digitsVal ds : Int) := Int.natCast_nonneg _
    refine ⟨?_, ?_, ?_⟩
    · intro hdata
      have hm : durationReMatch s.data = some (ds, 'd') := by
        rw [hdata]
        exact durationReMatch_concat ds 'd' hne hdig (Or.inl rfl)
      refine ⟨parseDuration_match_d s ds hm, ?_⟩
      intro hfit
      have h24 : (0 : Int) ≤ (digitsVal ds : Int) * 24 := by
        have : (0 : Int) ≤ 24 := by norm_num
        exact mul_nonneg hn0 this
      have hstep : (digitsVal ds : Int) * 24 ≤ (digitsVal ds : Int) * 24 * goHour :=
        le_mul_of_one_le_right h24 hgH
      have hsmall : (digitsVal ds : Int) ≤ (digitsVal ds : Int) * 24 :=
        le_mul_of_one_le_right hn0 (by norm_num)
      rw [parseDuration_match_d s ds hm,
        atoiDigits_exact _ (le_trans hsmall (le_trans hstep hfit)),
        mul64_exact _ 24 h24 (le_trans hstep hfit),
        mul64_exact _ goHour (mul_nonneg h24 hgH0) hfit]
    · intro hdata
      have hm : durationReMatch s.data = some (ds, 'h') := by
        rw [hdata]
        exact durationReMatch_concat ds 'h' hne hdig (Or.inr (Or.inl rfl))
      refine ⟨parseDuration_match_h s ds hm, ?_⟩
      intro hfit
      have hsmall : (digitsVal ds : Int) ≤ (digitsVal ds : Int) * goHour :=
        le_mul_of_one_le_right hn0 hgH
      rw [parseDuration_match_h s ds hm,
        atoiDigits_exact _ (le_trans hsmall hfit),
        mul64_exact _ goHour (mul_nonneg hn0 hgH0) hfit]
    · intro hdata
      have hm : durationReMatch s.data = some (ds, 'm') := by
        rw [hdata]
        exact durationReMatch_concat ds 'm' hne hdig (Or.inr (Or.inr rfl))
      refine ⟨parseDuration_match_m s ds hm, ?_⟩
      intro hfit
      have hsmall : (digitsVal ds : Int) ≤ (digitsVal ds : Int) * goMinute :=
        le_mul_of_one_le_right hn0 hgM
      rw [parseDuration_match_m s ds hm,
        atoiDigits_exact _ (le_trans hsmall hfit),
        mul64_exact _ goMinute (mul_nonneg hn0 hgM0) hfit]
  · -- malformed token: error before any deletion
    intro hno
    have hm : durationReMatch s.data = none := by
      cases hm : durationReMatch s.data with
      | none => rfl
      | some q =>
          rcases q with ⟨ds, u⟩
          exact absurd (durationReMatch_some s.data ds u hm) (hno ds u)
    have hp : parseDuration s = .error ("invalid duration " ++ s) := by
      unfold parseDuration
      rw [hm]
    refine ⟨hp, ?_⟩
    unfold handlePurgeDeliveryLog
    rw [hp]

lemma beBytes_length : ∀ (k n : Nat), (beBytes k n).length = k := by
  intro k
  induction k with
  | zero => intro n; rfl
  | succ k ih => intro n; simp [beBytes, ih]

lemma beBytes_lt : ∀ (k n : Nat), ∀ x ∈ beBytes k n, x < 256 := by
  intro k
  induction k with
  | zero => intro n x hx; cases hx
  | succ k ih =>
      intro n x hx
      simp only [beBytes, List.mem_append, List.mem_singleton] at hx
      rcases hx with h | h
      · exact ih (n / 256) x h
      · subst h; omega

lemma beNat_concat (l : List Nat) (d : Nat) :
    beNat (l ++ [d]) = beNat l * 256 + d := by
  simp [beNat, List.foldl_append]

lemma beNat_beBytes : ∀ (k n : Nat), n < 256 ^ k → beNat (beBytes k n) = n := by
  intro k
  induction k with
  | zero =>
      intro n h
      simp only [pow_zero, Nat.lt_one_iff] at h
      subst h
      rfl
  | succ k ih =>
      intro n h
      have hdiv : n / 256 < 256 ^ k := by
        rw [Nat.div_lt_iff_lt_mul (by norm_num)]
        calc n < 256 ^ (k + 1) := h
        _ = 256 ^ k * 256 := by ring
      simp only [beBytes, beNat_concat, ih (n / 256) hdiv]
      omega

lemma b64Val_b64Char : ∀ v : Nat, v < 64 → b64Val (b64Char v) = some v := by
  decide

lemma b64Decode_encode : ∀ bs : List Nat, (∀ x ∈ bs, x < 256) →
    b64Decode (b64Encode bs) = some bs := by
  intro bs
  induction bs using b64Encode.induct with
  | case1 => intro _; rfl
  | case2 a =>
      intro h
      have ha : a < 256 := h a (by simp)
      show b64Decode [b64Char (a / 4), b64Char (a % 4 * 16)] = some [a]
      simp only [b64Decode, b64Val_b64Char (a / 4) (by omega),
        b64Val_b64Char (a % 4 * 16) (by omega), Option.bind_eq_bind, Option.some_bind]
      have h1 : a / 4 * 4 + a % 4 * 16 / 16 = a := by omega
      rw [h1]
      rfl
  | case3 a c =>
      intro h
      have ha : a < 256 := h a (by simp)
      have hc : c < 256 := h c (by simp)
      show b64Decode [b64Char (a / 4), b64Char (a % 4 * 16 + c / 16),
        b64Char (c % 16 * 4)] = some [a, c]
      simp only [b64Decode, b64Val_b64Char (a / 4) (by omega),
        b64Val_b64Char (a % 4 * 16 + c / 16) (by omega),
        b64Val_b64Char (c % 16 * 4) (by omega), Option.bind_eq_bind, Option.some_bind]
      have h1 : a / 4 * 4 + (a % 4 * 16 + c / 16) / 16 = a := by omega
      have h2 : (a % 4 * 16 + c / 16) % 16 * 16 + c % 16 * 4 / 4 = c := by omega
      rw [h1, h2]
      rfl
  | case4 a c d rest ih =>
      intro h
      have ha : a < 256 := h a (by simp)
      have hc : c < 256 := h c (by simp)
      have hd : d < 256 := h d (by simp)
      have hrest : ∀ x ∈ rest, x < 256 := by
        intro x hx
        exact h x (by simp [hx])
      show b64Decode (b64Char (a / 4) :: b64Char (a % 4 * 16 + c / 16) ::
        b64Char (c % 16 * 4 + d / 64) :: b64Char (d % 64) :: b64Encode rest)
        = some (a :: c :: d :: rest)
      simp only [b64Decode, b64Val_b64Char (a / 4) (by omega),
        b64Val_b64Char (a % 4 * 16 + c / 16) (by omega),
        b64Val_b64Char (c % 16 * 4 + d / 64) (by omega),
        b64Val_b64Char (d % 64) (by omega), Option.bind_eq_bind, Option.some_bind, ih hrest]
      have h1 : a / 4 * 4 + (a % 4 * 16 + c / 16) / 16 = a := by omega
      have h2 : (a % 4 * 16 + c / 16) % 16 * 16 + (c % 16 * 4 + d / 64) / 4 = c := by
        omega
      have h3 : (c % 16 * 4 + d / 64) % 4 * 64 + d % 64 = d := by omega
      rw [h1, h2, h3]
      rfl

lemma p256P_lt : p256P < 256 ^ 32 := by decide

lemma unmarshalP256_marshal (x y : Nat) (hx : x < p256P) (hy : y < p256P)
    (hc : onCurveP256 x y = true) :
    unmarshalP256 (marshalP256 x y) = some (x, y) := by
  have hlx : (beBytes 32 x).length = 32 := beBytes_length 32 x
  have hly : (beBytes 32 y).length = 32 := beBytes_length 32 y
  show unmarshalP256 (4 :: (beBytes 32 x ++ beBytes 32 y)) = some (x, y)
  simp only [unmarshalP256]
  have hlen : ((beBytes 32 x ++ beBytes 32 y).length == 64) = true := by
    simp [hlx, hly]
  rw [if_pos hlen]
  rw [List.take_left' hlx, List.drop_left' hlx]
  rw [beNat_beBytes 32 x (lt_trans hx p256P_lt),
    beNat_beBytes 32 y (lt_trans hy p256P_lt)]
  have hcond : (decide (x < p256P) && decide (y < p256P) && onCurveP256 x y)
      = true := by
    simp [hx, hy, hc]
  rw [if_pos hcond]

lemma string_mk_data (l : List Char) : (String.mk l).data = l := rfl

lemma parseVAPIDKeys_pub (x y : Nat) (hx : x < p256P) (hy : y < p256P)
    (hc : onCurveP256 x y = true) (priv : String) (pbs : List Nat)
    (hpriv : b64Decode priv.data = some pbs) :
    parseVAPIDKeys ⟨b64Encode (marshalP256 x y)⟩ priv
      = some (x, y, beNat pbs) := by
  have hbytes : ∀ b ∈ marshalP256 x y, b < 256 := by
    intro b hb
    simp only [marshalP256, List.mem_cons, List.mem_append] at hb
    rcases hb with h | h | h
    · omega
    · exact beBytes_lt 32 x b h
    · exact beBytes_lt 32 y b h
  have hdec : b64Decode (b64Encode (marshalP256 x y)) = some (marshalP256 x y) :=
    b64Decode_encode (marshalP256 x y) hbytes
  unfold parseVAPIDKeys
  conv_lhs => rw [string_mk_data, hdec, Option.some_bind,
    unmarshalP256_marshal x y hx hy hc, Option.some_bind, hpriv,
    Option.some_bind]

/-- C7: for every key pair the generator can produce (a valid P-256
point with reduced coordinates and a 32-byte scalar), `parse` applied to
the two generated base64url strings succeeds and returns the same key
material, and re-encoding the reconstructed public key reproduces the
originally generated public key string. -/
theorem vapid_key_roundtrip (x y d : Nat) (hx : x < p256P) (hy : y < p256P)
    (hc : onCurveP256 x y = true) (hd : d < 2 ^ 256) :
    parseVAPIDKeys (generateVAPIDKeys x y d).1 (generateVAPIDKeys x y d).2
      = some (x, y, d)
    ∧ (∀ x' y' d', parseVAPIDKeys (generateVAPIDKeys x y d).1
          (generateVAPIDKeys x y d).2 = some (x', y', d') →
        (generateVAPIDKeys x' y' d').1 = (generateVAPIDKeys x y d).1) := by
  have hpbs : b64Decode ((generateVAPIDKeys x y d).2).data
      = some (beBytes 32 d) := by
    show b64Decode ((String.mk (b64Encode (beBytes 32 d))).data) = _
    conv_lhs => rw [string_mk_data]
    exact b64Decode_encode (beBytes 32 d) (beBytes_lt 32 d)
  have hmain : parseVAPIDKeys (generateVAPIDKeys x y d).1
      (generateVAPIDKeys x y d).2 = some (x, y, beNat (beBytes 32 d)) :=
    parseVAPIDKeys_pub x y hx hy hc _ (beBytes 32 d) hpbs
  have hbe : beNat (beBytes 32 d) = d := beNat_beBytes 32 d (by
    have h2 : (256 : Nat) ^ 32 = 2 ^ 256 := by norm_num
    omega)
  rw [hbe] at hmain
  refine ⟨hmain, ?_⟩
  intro x' y' d' h
  rw [hmain] at h
  have h' : (x, y, d) = (x', y', d') := Option.some.inj h
  exact (congrArg (fun t : Nat × Nat × Nat =>
    (generateVAPIDKeys t.1 t.2.1 t.2.2).1) h').symm

/-- Witness for C7: the round-trip theorem applied to the P-256 base
point with scalar 1. -/
theorem vapid_key_roundtrip_witness :
    parseVAPIDKeys (generateVAPIDKeys p256Gx p256Gy 1).1
        (generateVAPIDKeys p256Gx p256Gy 1).2
      = some (p256Gx, p256Gy, 1) :=
  (vapid_key_roundtrip p256Gx p256Gy 1 (by decide) (by decide) (by decide)
    (by decide)).1

/-- C10: the key parser validates only the public component. For the
well-formed public key string generated from the base point and the
private key string `"AA"` — whose single zero byte encodes the scalar 0,
which is not the scalar of this (or any) public point — `parse` succeeds
and returns the mismatched pair: no consistency check between the two
components is performed. -/
theorem parse_no_private_validation :
    parseVAPIDKeys (generateVAPIDKeys p256Gx p256Gy 1).1 "AA"
      = some (p256Gx, p256Gy, 0)
    ∧ ¬scalarMatches 0 p256Gx p256Gy := by
  constructor
  · have h := parseVAPIDKeys_pub p256Gx p256Gy (by decide) (by decide)
      (by decide) "AA" [0] rfl
    exact h
  · intro h
    simp only [scalarMatches, p256ScalarMult, scalarMultAux] at h
    cases h

/-- Witness for C5: the amended parser theorem applied to the token
`"30d"`, whose value fits in `int64`, yields exactly 30 days in
nanoseconds. -/
theorem parse_duration_token_witness :
    parseDuration "30d" = .ok 2592000000000000 := by
  have h := (((parse_duration_token "30d" 0 []).2.1) ['3', '0'] (by decide)
    (by decide)).1 rfl
  have h2 := h.2 (by decide)
  exact h2.trans (congrArg Except.ok (by decide))
